import Mathlib

/-!
Verification of the microvtk array-registration and binary-encoding core.

The definitions below are a shallow embedding of the C++ sources:
  * `core/binary_utils.hpp`  — little-endian byte encoding (`write_le`,
    `append_range`);
  * `core/data_accessor.hpp` — `RangeAccessor` (size in bytes, streaming to an
    output sink via the contiguous fast path or the element-wise slow path);
  * `core/compressor.hpp`    — the compressor factory;
  * `vtu_writer.hpp`         — registration (`registerData`, `setPoints`,
    `setCells`, `addPointData`, `addCellData`) and the two-mode `write`
    (streaming / compressed pre-pass and emission);
  * `cabana_adapter.hpp`     — the multi-dimensional flattening view.

Machine bytes are modelled as `Nat` values `< 256`; byte buffers and streams
as `List Nat`.  The host is modelled as little-endian (on a big-endian host
the source byteswaps into the same little-endian wire bytes, so the wire
content is host-independent).
-/

namespace Microvtk

/-- Little-endian byte image of a `w`-byte machine word holding value `v`
(the memory image that `write_le` in `binary_utils.hpp` appends: low byte
first).  Values are reduced modulo `256^w`, as storing into a fixed-width
word does. -/
def encodeLE : Nat → Nat → List Nat
  | 0, _ => []
  | w + 1, v => v % 256 :: encodeLE w (v / 256)

/-- Little-endian decoding of a byte list: inverse reading of `encodeLE`. -/
def decodeLE : List Nat → Nat
  | [] => 0
  | b :: bs => b + 256 * decodeLE bs

/-- A registered range: a caller-owned sequence of `w`-byte machine values
(`elems` holds each element's bit pattern as a `Nat < 256^w`).  `elemSize`
plays the role of `sizeof(T)`; `typeName` of `vtkTypeName<T>()`;
`contiguous` of `std::ranges::contiguous_range<R>` (which branch of
`append_range` / `write_to_stream` is compiled). -/
structure Range where
  elemSize : Nat
  typeName : String
  contiguous : Bool
  elems : List Nat
  deriving Repr, DecidableEq

/-- `write_le(value, buffer)` from `binary_utils.hpp:27-33`: appends the
little-endian bytes of `value` to `buffer`. -/
def write_le (w v : Nat) (buffer : List Nat) : List Nat :=
  buffer ++ encodeLE w v

/-- The little-endian byte image of a whole range: what the raw memory of a
contiguous buffer of its elements looks like on a little-endian host. -/
def payloadBytes (r : Range) : List Nat :=
  (r.elems.map (encodeLE r.elemSize)).flatten

/-- `append_range`, contiguous branch (`binary_utils.hpp:47-66`): inserts the
raw bytes of the buffer (the little-endian memory image) into `buffer`. -/
def append_range_contiguous (r : Range) (buffer : List Nat) : List Nat :=
  buffer ++ payloadBytes r

/-- `append_range`, non-contiguous branch (`binary_utils.hpp:67-73`): `write_le`
each element in order. -/
def append_range_noncontiguous (r : Range) (buffer : List Nat) : List Nat :=
  r.elems.foldl (fun b v => write_le r.elemSize v b) buffer

/-- `append_range` (`binary_utils.hpp:44-74`): compile-time dispatch on
contiguity. -/
def append_range (r : Range) (buffer : List Nat) : List Nat :=
  if r.contiguous then append_range_contiguous r buffer
  else append_range_noncontiguous r buffer

/-- `RangeAccessor::size_bytes` (`data_accessor.hpp:65-68`):
`size(range) * sizeof(T)`. -/
def size_bytes (r : Range) : Nat :=
  r.elems.length * r.elemSize

/-- `RangeAccessor::write_to` (`data_accessor.hpp:28-31`): `append_range` into
the given buffer. -/
def write_to (r : Range) (buffer : List Nat) : List Nat :=
  append_range r buffer

/-- `RangeAccessor::write_to_stream`, slow path (`data_accessor.hpp:40-62`):
`write_le` each element into a scratch buffer, flushing it to the stream
whenever it reaches 4096 bytes, then flush the remainder.  Returns the bytes
the stream receives. -/
def write_to_stream_noncontiguous (r : Range) : List Nat :=
  let step := fun (st : List Nat × List Nat) v =>
    let temp := write_le r.elemSize v st.2
    if 4096 ≤ temp.length then (st.1 ++ temp, []) else (st.1, temp)
  let fin := r.elems.foldl step ([], [])
  fin.1 ++ fin.2

/-- `RangeAccessor::write_to_stream`, fast path (`data_accessor.hpp:35-39`):
hand the raw memory (little-endian image) to the stream. -/
def write_to_stream_contiguous (r : Range) : List Nat :=
  payloadBytes r

/-- `RangeAccessor::write_to_stream` (`data_accessor.hpp:33-63`). -/
def write_to_stream (r : Range) : List Nat :=
  if r.contiguous then write_to_stream_contiguous r
  else write_to_stream_noncontiguous r

/-- Split a little-endian byte stream into machine words of `w + 1` bytes and
decode each: the reader's view of one array's payload, per the declared element
type.  (The width is written `w + 1` because elements of the ten supported
numeric kinds are at least one byte wide.) -/
def decodeStream (w : Nat) : List Nat → List Nat
  | [] => []
  | b :: bs => decodeLE (b :: bs.take w) :: decodeStream w (bs.drop w)
  termination_by l => l.length
  decreasing_by simp [List.length_drop]; omega

structure CabanaSlice where
  numTuples : Nat
  numComponents : Nat
  access : Nat → Nat → Nat

namespace CabanaSlice

/-- `CabanaFlattenedView::size` (`cabana_adapter.hpp:39`):
`slice_.size() * NumComponents`. -/
def flattenedSize (s : CabanaSlice) : Nat :=
  s.numTuples * s.numComponents

/-- `CabanaFlattenedView::Iterator::operator*` (`cabana_adapter.hpp:69-74`):
`tuple_idx = idx / NumComponents`, `comp_idx = idx % NumComponents`, then the
rank-dispatched slice access. -/
def flattenedGet (s : CabanaSlice) (idx : Nat) : Nat :=
  s.access (idx / s.numComponents) (idx % s.numComponents)

/-- The sequence the view iterates: `operator*` at every index from `begin`
(idx 0) to `end` (idx `size`). -/
def flattenedSeq (s : CabanaSlice) : List Nat :=
  (List.range (flattenedSize s)).map (flattenedGet s)

/-- Specification order: for each tuple in order, its components in order
(tuple-major, row-major). -/
def tupleMajorSeq (s : CabanaSlice) : List Nat :=
  ((List.range s.numTuples).map (fun t => (List.range s.numComponents).map (s.access t))).flatten

end CabanaSlice

/-- `core::CompressionType` (`compressor.hpp:18-22`). -/
inductive CompressionType where
  | none
  | zlib
  | lz4
  deriving Repr, DecidableEq

/-- A compressor (`compressor.hpp:25-32`): `compress(bytes) -> bytes`.  An
empty result is the failure indicator (`compressor.hpp:43-46,68-70`). -/
def Compressor : Type := List Nat → List Nat

/-- `createCompressor` (`compressor.hpp:78-95`) abstracted over which codecs
are compiled in: `Option.none` models the `nullptr` returned when the codec is
unavailable (and always for `CompressionType.none`). -/
def CompressorFactory : Type := CompressionType → Option Compressor

/-- `VtuWriter::DataBlockInfo` (`vtu_writer.hpp:246-252`).  `offset` is
uninitialized in the source while `valid = false` and is never read in that
state (both `writeArrayHeader` and `processBlock` return early); the
embedding fixes it at 0. -/
structure DataBlockInfo where
  name : String
  offset : Nat
  typeName : String
  numComponents : Nat
  valid : Bool := false
  deriving Repr, DecidableEq

instance : Inhabited DataBlockInfo := ⟨{ name := "", offset := 0, typeName := "", numComponents := 0 }⟩

instance : Inhabited Range := ⟨⟨0, "", true, []⟩⟩

/-- The private state of a `VtuWriter` (`vtu_writer.hpp:292-306`). -/
structure WriterState where
  accessors : List Range
  currentOffset : Nat
  compressionType : CompressionType
  numberOfPoints : Nat
  numberOfCells : Nat
  pointsBlock : DataBlockInfo
  cellsConnBlock : DataBlockInfo
  cellsOffsetsBlock : DataBlockInfo
  cellsTypesBlock : DataBlockInfo
  pointDataBlocks : List DataBlockInfo
  cellDataBlocks : List DataBlockInfo
  deriving Repr, DecidableEq

/-- A freshly constructed `VtuWriter`. -/
def initialWriter : WriterState :=
  { accessors := []
    currentOffset := 0
    compressionType := CompressionType.none
    numberOfPoints := 0
    numberOfCells := 0
    pointsBlock := default
    cellsConnBlock := default
    cellsOffsetsBlock := default
    cellsTypesBlock := default
    pointDataBlocks := []
    cellDataBlocks := [] }

/-- `VtuWriter::setCompression` (`vtu_writer.hpp:23`). -/
def setCompression (t : CompressionType) (s : WriterState) : WriterState :=
  { s with compressionType := t }

/-- `VtuWriter::registerData` (`vtu_writer.hpp:254-278`): build the block
with the current cumulative offset, advance the cumulative offset by the
8-byte streaming header plus the accessor's `size_bytes()`, push the
accessor. -/
def registerData (data : Range) (name : String) (numComponents : Nat)
    (s : WriterState) : DataBlockInfo × WriterState :=
  let info : DataBlockInfo :=
    { name := name
      offset := s.currentOffset
      typeName := data.typeName
      numComponents := numComponents
      valid := true }
  let payloadSize := size_bytes data
  (info,
    { s with
        currentOffset := s.currentOffset + (8 + payloadSize)
        accessors := s.accessors ++ [data] })

/-- `VtuWriter::setPoints` (`vtu_writer.hpp:27-31`). -/
def setPoints (points : Range) (s : WriterState) : WriterState :=
  let s1 := { s with numberOfPoints := points.elems.length / 3 }
  let reg := registerData points "Points" 3 s1
  { reg.2 with pointsBlock := reg.1 }

/-- `VtuWriter::setCells` (`vtu_writer.hpp:37-48`): the size check precedes
every mutation (the `throw` happens before `numberOfCells_` is assigned and
before any `registerData` call), so on mismatch the returned state is the
input state and the first component carries the exception message. -/
def setCells (connectivity offsets_ types_ : Range) (s : WriterState) :
    Option String × WriterState :=
  if offsets_.elems.length ≠ types_.elems.length then
    (Option.some "VtuWriter::setCells: Size mismatch between offsets and types.", s)
  else
    let s1 := { s with numberOfCells := types_.elems.length }
    let reg1 := registerData connectivity "connectivity" 1 s1
    let reg2 := registerData offsets_ "offsets" 1 reg1.2
    let reg3 := registerData types_ "types" 1 reg2.2
    (Option.none,
      { reg3.2 with
          cellsConnBlock := reg1.1
          cellsOffsetsBlock := reg2.1
          cellsTypesBlock := reg3.1 })

/-- `VtuWriter::addPointData` (`vtu_writer.hpp:51-55`). -/
def addPointData (name : String) (data : Range) (numComponents : Nat)
    (s : WriterState) : WriterState :=
  let reg := registerData data name numComponents s
  { reg.2 with pointDataBlocks := reg.2.pointDataBlocks ++ [reg.1] }

/-- `VtuWriter::addCellData` (`vtu_writer.hpp:58-62`). -/
def addCellData (name : String) (data : Range) (numComponents : Nat)
    (s : WriterState) : WriterState :=
  let reg := registerData data name numComponents s
  { reg.2 with cellDataBlocks := reg.2.cellDataBlocks ++ [reg.1] }

/-- One `DataArray` element of the schema section: the attributes
`writeArrayHeader` emits besides the fixed `format="appended"` literal. -/
structure SchemaEntry where
  typeName : String
  name : String
  numComponents : Nat
  offset : Nat
  deriving Repr, DecidableEq

/-- `VtuWriter::writeArrayHeader` (`vtu_writer.hpp:280-290`): skips invalid
blocks, otherwise emits one `DataArray` element carrying the block's
attributes and byte offset. -/
def writeArrayHeader (info : DataBlockInfo) : List SchemaEntry :=
  if info.valid then
    [{ typeName := info.typeName
       name := info.name
       numComponents := info.numComponents
       offset := info.offset }]
  else []

/-- The fixed traversal order of the blocks, shared by the schema emission
(`vtu_writer.hpp:146-174`), the compression pre-pass (`vtu_writer.hpp:108-119`)
and the compressed emission (`vtu_writer.hpp:219-226`): Points, connectivity,
offsets, types, then point data, then cell data. -/
def blocksInOrder (s : WriterState) : List DataBlockInfo :=
  [s.pointsBlock, s.cellsConnBlock, s.cellsOffsetsBlock, s.cellsTypesBlock]
    ++ s.pointDataBlocks ++ s.cellDataBlocks

/-- The pre-pass call list (`vtu_writer.hpp:108-119`): each block with the
hard-coded accessor index passed to `processBlock` — 0 to 3 for the fixed
blocks, then `idx` counting up from 4 across point data and cell data. -/
def prePassList (s : WriterState) : List (DataBlockInfo × Nat) :=
  [(s.pointsBlock, 0), (s.cellsConnBlock, 1), (s.cellsOffsetsBlock, 2), (s.cellsTypesBlock, 3)]
    ++ (List.enumFrom 4 s.pointDataBlocks).map (fun p => (p.2, p.1))
    ++ (List.enumFrom (4 + s.pointDataBlocks.length) s.cellDataBlocks).map (fun p => (p.2, p.1))

/-- The mutable state threaded through the compression pre-pass:
`compressedBuffers`, `originalSizes`, `runningOffset` (`vtu_writer.hpp:68-83`)
and the blocks as updated in place by `processBlock`. -/
structure PrePassState where
  compressedBuffers : List (List Nat)
  originalSizes : List Nat
  runningOffset : Nat
  blocksOut : List DataBlockInfo
  deriving Repr, DecidableEq

/-- `processBlock` (`vtu_writer.hpp:86-106`): skip invalid blocks; otherwise
materialize the payload of `accessors_[index]` by `write_to` into an empty
temporary, record its size, compress it, set the block's offset to the running
offset and advance the running offset by the 32-byte VTK block header plus the
compressed size.  (`accessors_[index]` out of bounds is undefined behaviour in
the source; the embedding totalizes it with the default range — the theorems
below only exercise in-bounds indices.) -/
def processBlock (comp : Compressor) (accessors : List Range)
    (st : PrePassState) (info : DataBlockInfo) (index : Nat) : PrePassState :=
  if !info.valid then { st with blocksOut := st.blocksOut ++ [info] }
  else
    let tempRaw := write_to (accessors.getD index default) []
    let compressed := comp tempRaw
    { compressedBuffers := st.compressedBuffers ++ [compressed]
      originalSizes := st.originalSizes ++ [tempRaw.length]
      runningOffset := st.runningOffset + (32 + compressed.length)
      blocksOut := st.blocksOut ++ [{ info with offset := st.runningOffset }] }

/-- Folding `processBlock` over a block/index list. -/
def prePassFold (comp : Compressor) (accessors : List Range)
    (st : PrePassState) (L : List (DataBlockInfo × Nat)) : PrePassState :=
  L.foldl (fun acc p => processBlock comp accessors acc p.1 p.2) st

/-- The whole compression pre-pass (`vtu_writer.hpp:81-120`). -/
def runPrePass (comp : Compressor) (s : WriterState) : PrePassState :=
  prePassFold comp s.accessors
    { compressedBuffers := [], originalSizes := [], runningOffset := 0, blocksOut := [] }
    (prePassList s)

/-- `writeCompressedBlock` (`vtu_writer.hpp:188-217`): the four-field header
`[NumberOfBlocks = 1, BlockSize = origSize, LastBlockSize = origSize,
CompressedBlockSize = compressed.size()]` is built from the stored buffer's
length, then the first loop (`vtu_writer.hpp:197-200`) appends the header's
little-endian bytes to the stored buffer itself, then the header is written to
the stream, then the stored buffer — now 32 bytes longer — is written in
full. -/
def writeCompressedBlock (origSize : Nat) (compressed : List Nat) : List Nat :=
  let headerVals : List Nat := [1, origSize, origSize, compressed.length]
  let headerBytes := (headerVals.map (encodeLE 8)).flatten
  let compressedMut := compressed ++ headerBytes
  headerBytes ++ compressedMut

/-- The compressed-mode binary section (`vtu_writer.hpp:183-226`): the valid
blocks are revisited in pre-pass order and `bufIdx` walks the recorded
`(originalSizes, compressedBuffers)` pairs in lockstep, so the section is the
concatenation of `writeCompressedBlock` over those pairs in order. -/
def compressedBinary (pre : PrePassState) : List Nat :=
  ((pre.originalSizes.zip pre.compressedBuffers).map
      (fun p => writeCompressedBlock p.1 p.2)).flatten

/-- The streaming-mode binary section (`vtu_writer.hpp:228-239`): for every
accessor in push order, an 8-byte little-endian header holding `size_bytes()`
followed by `write_to_stream`. -/
def streamingBinary (accessors : List Range) : List Nat :=
  (accessors.map (fun a => write_le 8 (size_bytes a) [] ++ write_to_stream a)).flatten

/-- The compressor attribute on the root element (`vtu_writer.hpp:132-137`),
emitted only when compression is in use. -/
def compressorName : CompressionType → Option String
  | CompressionType.zlib => Option.some "vtkZLibDataCompressor"
  | CompressionType.lz4 => Option.some "vtkLZ4DataCompressor"
  | CompressionType.none => Option.none

/-- The observable content of a written file: root attributes, the `DataArray`
schema elements in emission order, and the raw binary section following the
`">_"` marker. -/
structure Document where
  compressorAttr : Option String
  numberOfPoints : Nat
  numberOfCells : Nat
  schema : List SchemaEntry
  binary : List Nat
  deriving Repr, DecidableEq

/-- The streaming branch of `VtuWriter::write`: the schema is emitted from the
registration-time blocks (no offset is touched) and the binary section is the
single streaming pass. -/
def writeStreaming (s : WriterState) : Document :=
  { compressorAttr := Option.none
    numberOfPoints := s.numberOfPoints
    numberOfCells := s.numberOfCells
    schema := ((blocksInOrder s).map writeArrayHeader).flatten
    binary := streamingBinary s.accessors }

/-- The compressed branch of `VtuWriter::write`: pre-pass, then schema from
the rewritten blocks, then the compressed binary section. -/
def writeCompressed (comp : Compressor) (s : WriterState) : Document :=
  let pre := runPrePass comp s
  { compressorAttr := compressorName s.compressionType
    numberOfPoints := s.numberOfPoints
    numberOfCells := s.numberOfCells
    schema := (pre.blocksOut.map writeArrayHeader).flatten
    binary := compressedBinary pre }

/-- `VtuWriter::write` (`vtu_writer.hpp:65-243`).  `usingCompression` starts
as `compressionType_ != None` and is cleared when `createCompressor` yields
nothing (`vtu_writer.hpp:71-79`): compression is silently disabled and the
write proceeds in streaming mode. -/
def write (factory : CompressorFactory) (s : WriterState) : Document :=
  match factory s.compressionType with
  | Option.none => writeStreaming s
  | Option.some comp =>
    if s.compressionType = CompressionType.none then writeStreaming s
    else writeCompressed comp s

/-! ### Call sequences against the public interface -/

/-- One call against the registration interface. -/
inductive RegCall where
  | points (r : Range)
  | cells (connectivity offsets_ types_ : Range)
  | pointData (name : String) (r : Range) (numComponents : Nat)
  | cellData (name : String) (r : Range) (numComponents : Nat)
  deriving Repr, DecidableEq

def applyCall (s : WriterState) : RegCall → WriterState
  | RegCall.points r => setPoints r s
  | RegCall.cells c o t => (setCells c o t s).2
  | RegCall.pointData n r k => addPointData n r k s
  | RegCall.cellData n r k => addCellData n r k s

/-- Run a call sequence against a fresh writer. -/
def applyCalls (calls : List RegCall) : WriterState :=
  calls.foldl applyCall initialWriter

/-- The ground-truth block/data-source association: the `(name, range)` pairs
in the order the call sequence invokes `registerData` (a failed `setCells`
registers nothing). -/
def callRegistrations : RegCall → List (String × Range)
  | RegCall.points r => [("Points", r)]
  | RegCall.cells c o t =>
    if o.elems.length ≠ t.elems.length then []
    else [("connectivity", c), ("offsets", o), ("types", t)]
  | RegCall.pointData n r _ => [(n, r)]
  | RegCall.cellData n r _ => [(n, r)]

def registrationPairs (calls : List RegCall) : List (String × Range) :=
  (calls.map callRegistrations).flatten

/-- The association the compressed-mode pre-pass actually consumes: every
valid block in pre-pass order paired with `accessors_[index]` for its
hard-coded index (`vtu_writer.hpp:108-119`). -/
def prePassPairs (s : WriterState) : List (String × Range) :=
  (prePassList s).filterMap
    (fun p =>
      if p.1.valid then Option.some (p.1.name, s.accessors.getD p.2 default)
      else Option.none)

/-! ### Specification-side helper definitions (used only in theorem statements) -/

/-- The payloads the pre-pass materializes for a block/index list: one per
valid block, in order. -/
def blockPayloads (accessors : List Range) (L : List (DataBlockInfo × Nat)) :
    List (List Nat) :=
  L.filterMap
    (fun p =>
      if p.1.valid then Option.some (write_to (accessors.getD p.2 default) [])
      else Option.none)

/-- The payloads the compression pre-pass materializes: one per valid block,
in pre-pass order. -/
def prePassPayloads (s : WriterState) : List (List Nat) :=
  blockPayloads s.accessors (prePassList s)

/-- The four-field VTK single-block header for an uncompressed payload `p`
under compressor `comp`: `block_count = 1`, `block_size = last_block_size =
p.length`, `compressed_size = (comp p).length`, each as an 8-byte
little-endian word. -/
def vtkBlockHeader (comp : Compressor) (p : List Nat) : List Nat :=
  encodeLE 8 1 ++ encodeLE 8 p.length ++ encodeLE 8 p.length ++
    encodeLE 8 (comp p).length

/-- The running-sum offsets of the compressed layout: `offset_0 = acc` and
`offset_(i+1) = offset_i + 32 + compressed_size_i`. -/
def runningOffsets (comp : Compressor) (acc : Nat) : List (List Nat) → List Nat
  | [] => []
  | p :: ps => acc :: runningOffsets comp (acc + (32 + (comp p).length)) ps

/-- The blocks `registerData` produces for a list of `(name, range,
numComponents)` registrations starting at cumulative offset `off`. -/
def regInfoList (off : Nat) : List (String × Range × Nat) → List DataBlockInfo
  | [] => []
  | x :: xs =>
    { name := x.1
      offset := off
      typeName := x.2.1.typeName
      numComponents := x.2.2
      valid := true } :: regInfoList (off + (8 + size_bytes x.2.1)) xs

/-- Total cumulative-offset advance of a list of registrations. -/
def regCost (xs : List (String × Range × Nat)) : Nat :=
  (xs.map (fun x => 8 + size_bytes x.2.1)).sum

def mkPointDataCall (x : String × Range × Nat) : RegCall :=
  RegCall.pointData x.1 x.2.1 x.2.2

def mkCellDataCall (x : String × Range × Nat) : RegCall :=
  RegCall.cellData x.1 x.2.1 x.2.2

/-- The canonical registration order: `setPoints` once, then `setCells` once,
then all `addPointData` calls, then all `addCellData` calls. -/
def canonCalls (p c o t : Range) (pds cds : List (String × Range × Nat)) :
    List RegCall :=
  RegCall.points p :: RegCall.cells c o t ::
    (pds.map mkPointDataCall ++ cds.map mkCellDataCall)

/-- The writer state after `setPoints p` and a successful `setCells c o t`
on a fresh writer (the canonical prefix). -/
def canonBase (p c o t : Range) : WriterState :=
  { accessors := [p, c, o, t]
    currentOffset := 8 + size_bytes p + (8 + size_bytes c) + (8 + size_bytes o)
      + (8 + size_bytes t)
    compressionType := CompressionType.none
    numberOfPoints := p.elems.length / 3
    numberOfCells := t.elems.length
    pointsBlock :=
      { name := "Points", offset := 0, typeName := p.typeName
        numComponents := 3, valid := true }
    cellsConnBlock :=
      { name := "connectivity", offset := 8 + size_bytes p, typeName := c.typeName
        numComponents := 1, valid := true }
    cellsOffsetsBlock :=
      { name := "offsets", offset := 8 + size_bytes p + (8 + size_bytes c)
        typeName := o.typeName, numComponents := 1, valid := true }
    cellsTypesBlock :=
      { name := "types", offset := 8 + size_bytes p + (8 + size_bytes c) + (8 + size_bytes o)
        typeName := t.typeName, numComponents := 1, valid := true }
    pointDataBlocks := []
    cellDataBlocks := [] }

/-! ### Concrete demonstration inputs -/

def pRange : Range := ⟨1, "Float64", true, [1, 2, 3]⟩

def cRange : Range := ⟨1, "Int64", true, [0, 1, 2, 3]⟩

def oRange : Range := ⟨1, "Int64", true, [4]⟩

def tRange : Range := ⟨1, "UInt8", true, [10]⟩

/-- One tetrahedron-like dataset registered in canonical order. -/
def demoCalls : List RegCall :=
  [RegCall.points pRange, RegCall.cells cRange oRange tRange]

/-- The demo dataset with zlib compression requested. -/
def demoCompressed : WriterState :=
  setCompression CompressionType.zlib (applyCalls demoCalls)

/-- A factory whose codec is the identity (every block "compresses" to
itself): a legal `compress` implementation. -/
def idFactory : CompressorFactory := fun _ => Option.some (fun b => b)

/-- A factory whose codec reports failure (the empty byte vector) on every
block, as `ZlibCompressor::compress` does when `::compress` fails
(`compressor.hpp:43-46`). -/
def failFactory : CompressorFactory := fun _ => Option.some (fun _ => [])

/-- A points-only dataset with zlib compression requested. -/
def demoPointsOnly : WriterState :=
  setCompression CompressionType.zlib (applyCalls [RegCall.points pRange])

/-- Registration order the public interface permits but the pre-pass
mis-indexes: `setCells` first, then `setPoints`. -/
def swappedCalls : List RegCall :=
  [RegCall.cells cRange oRange tRange, RegCall.points pRange]

/-- A 2-tuple slice of 3-vectors. -/
def demoSlice : CabanaSlice :=
  { numTuples := 2, numComponents := 3, access := fun t c => 10 * t + c }

@[simp] theorem encodeLE_length (w v : Nat) : (encodeLE w v).length = w := by
  induction w generalizing v with
  | zero => rfl
  | succ w ih => simp [encodeLE, ih]

theorem decodeLE_encodeLE (w v : Nat) : decodeLE (encodeLE w v) = v % 256 ^ w := by
  induction w generalizing v with
  | zero => simp [encodeLE, decodeLE, Nat.mod_one]
  | succ w ih =>
    simp only [encodeLE, decodeLE, ih]
    rw [pow_succ', Nat.mod_mul]

theorem decodeLE_encodeLE_of_lt {w v : Nat} (h : v < 256 ^ w) :
    decodeLE (encodeLE w v) = v := by
  rw [decodeLE_encodeLE, Nat.mod_eq_of_lt h]

theorem append_range_noncontiguous_eq (r : Range) (buffer : List Nat) :
    append_range_noncontiguous r buffer = buffer ++ payloadBytes r := by
  unfold append_range_noncontiguous payloadBytes
  generalize r.elems = l
  induction l generalizing buffer with
  | nil => simp
  | cons x xs ih =>
    simp only [List.foldl_cons, List.map_cons, List.flatten_cons]
    rw [ih]
    simp [write_le, List.append_assoc]

theorem append_range_eq (r : Range) (buffer : List Nat) :
    append_range r buffer = buffer ++ payloadBytes r := by
  unfold append_range append_range_contiguous
  rw [append_range_noncontiguous_eq]
  split <;> rfl

theorem write_to_eq (r : Range) (buffer : List Nat) :
    write_to r buffer = buffer ++ payloadBytes r :=
  append_range_eq r buffer

theorem write_to_stream_noncontiguous_eq (r : Range) :
    write_to_stream_noncontiguous r = payloadBytes r := by
  unfold write_to_stream_noncontiguous payloadBytes
  suffices h : ∀ (l : List Nat) (stream temp : List Nat),
      (l.foldl
          (fun (st : List Nat × List Nat) v =>
            let t := write_le r.elemSize v st.2
            if 4096 ≤ t.length then (st.1 ++ t, []) else (st.1, t))
          (stream, temp)).1 ++
        (l.foldl
          (fun (st : List Nat × List Nat) v =>
            let t := write_le r.elemSize v st.2
            if 4096 ≤ t.length then (st.1 ++ t, []) else (st.1, t))
          (stream, temp)).2 =
        stream ++ temp ++ (l.map (encodeLE r.elemSize)).flatten by
    simpa using h r.elems [] []
  intro l
  induction l with
  | nil => intro stream temp; simp
  | cons x xs ih =>
    intro stream temp
    simp only [List.foldl_cons, List.map_cons, List.flatten_cons]
    by_cases h : 4096 ≤ (write_le r.elemSize x temp).length
    · simp only [h, if_pos, ih]
      simp [write_le, List.append_assoc]
    · simp only [h, if_neg, not_false_iff, ih]
      simp [write_le, List.append_assoc]

theorem write_to_stream_eq (r : Range) :
    write_to_stream r = payloadBytes r := by
  unfold write_to_stream write_to_stream_contiguous
  rw [write_to_stream_noncontiguous_eq]
  split <;> rfl

@[simp] theorem payloadBytes_length (r : Range) :
    (payloadBytes r).length = size_bytes r := by
  unfold payloadBytes size_bytes
  induction r.elems with
  | nil => simp
  | cons x xs ih => simp [ih, Nat.succ_mul, Nat.add_comm]

theorem decodeStream_flatten (w : Nat) (l : List Nat)
    (h : ∀ e ∈ l, e < 256 ^ (w + 1)) :
    decodeStream w ((l.map (encodeLE (w + 1))).flatten) = l := by
  induction l with
  | nil => simp [decodeStream]
  | cons x xs ih =>
    have hx : x < 256 ^ (w + 1) := h x (List.mem_cons_self x xs)
    have hxs : ∀ e ∈ xs, e < 256 ^ (w + 1) := fun e he => h e (List.mem_cons_of_mem x he)
    have hlen : (encodeLE w (x / 256)).length = w := encodeLE_length w (x / 256)
    simp only [List.map_cons, List.flatten_cons]
    rw [show encodeLE (w + 1) x = x % 256 :: encodeLE w (x / 256) from rfl]
    rw [List.cons_append, decodeStream]
    rw [List.take_left' hlen, List.drop_left' hlen]
    rw [show (x % 256 :: encodeLE w (x / 256)) = encodeLE (w + 1) x from rfl,
        decodeLE_encodeLE_of_lt hx, ih hxs]

/-! ### Cabana flattening adapter (`cabana_adapter.hpp`)

A `Cabana::Slice` is modelled by its tuple count, its component count
(`NumComponents`: `std::extent_v<ValueType>` for rank-1 slices, `1` for
rank-0 slices) and its access function; for a rank-0 slice the source access
takes only the tuple index, modelled by the component argument being ignored
(`access t c = access t 0`). -/

theorem range_mul_div_mod (W : Nat) (hW : 0 < W) (M : Nat) (f : Nat → Nat → Nat) :
    (List.range (M * W)).map (fun i => f (i / W) (i % W)) =
      ((List.range M).map (fun t => (List.range W).map (f t))).flatten := by
  induction M with
  | zero => simp
  | succ M ih =>
    rw [Nat.succ_mul, List.range_add, List.map_append, ih, List.range_succ,
        List.map_append, List.flatten_append]
    congr 1
    simp only [List.map_map, List.map_cons, List.map_nil, List.flatten_cons, List.flatten_nil,
      List.append_nil]
    apply List.map_congr_left
    intro j hj
    have hjW : j < W := List.mem_range.mp hj
    have h1 : M * W + j = W * M + j := by ring
    simp only [Function.comp_apply]
    rw [h1, Nat.mul_add_div hW, Nat.mul_add_mod, Nat.div_eq_of_lt hjW, Nat.add_zero,
        Nat.mod_eq_of_lt hjW]

/-! ### The writer (`vtu_writer.hpp`) -/

/-! ### Claim theorems -/

/-- C4: for every pair of ranges with `size(offsets) != size(types)`,
`setCells` fails with the invalid-input error before registering any of the
three cell arrays: the block list, accessor list, cumulative offset and cell
count are all unchanged (no partial registration). -/
theorem setCells_mismatch_no_partial_registration
    (s : WriterState) (c o t : Range)
    (h : o.elems.length ≠ t.elems.length) :
    setCells c o t s =
      (Option.some "VtuWriter::setCells: Size mismatch between offsets and types.", s) ∧
    (setCells c o t s).2.accessors = s.accessors ∧
    (setCells c o t s).2.cellsConnBlock = s.cellsConnBlock ∧
    (setCells c o t s).2.cellsOffsetsBlock = s.cellsOffsetsBlock ∧
    (setCells c o t s).2.cellsTypesBlock = s.cellsTypesBlock ∧
    (setCells c o t s).2.currentOffset = s.currentOffset ∧
    (setCells c o t s).2.numberOfCells = s.numberOfCells := by
  simp [setCells, h]

/-- Witness for C4 at a concrete mismatched input (1 offset, 3 "types"). -/
theorem setCells_mismatch_witness :
    setCells cRange oRange pRange initialWriter =
      (Option.some "VtuWriter::setCells: Size mismatch between offsets and types.",
        initialWriter) :=
  (setCells_mismatch_no_partial_registration initialWriter cRange oRange pRange
    (by decide)).1

/-- C6: every registration assigns the block the current cumulative offset and
advances the cumulative offset by exactly 8 bytes (the streaming length
prefix) plus `size_bytes()`, which is `element_count * element_size`; this
holds for `registerData` itself and through each public registration call. -/
theorem registration_offset_accounting
    (s : WriterState) (r c o t : Range) (nm : String) (k : Nat) :
    (registerData r nm k s).1.offset = s.currentOffset ∧
    (registerData r nm k s).2.currentOffset = s.currentOffset + (8 + size_bytes r) ∧
    size_bytes r = r.elems.length * r.elemSize ∧
    (setPoints r s).currentOffset = s.currentOffset + (8 + size_bytes r) ∧
    (addPointData nm r k s).currentOffset = s.currentOffset + (8 + size_bytes r) ∧
    (addCellData nm r k s).currentOffset = s.currentOffset + (8 + size_bytes r) ∧
    (o.elems.length = t.elems.length →
      (setCells c o t s).2.currentOffset =
        s.currentOffset + (8 + size_bytes c) + (8 + size_bytes o) + (8 + size_bytes t)) := by
  refine ⟨rfl, rfl, rfl, rfl, rfl, rfl, fun h => ?_⟩
  simp [setCells, h, registerData]

/-- Witness for C6 at concrete inputs, including the `setCells` path. -/
theorem registration_offset_witness :
    (registerData pRange "Points" 3 initialWriter).1.offset = initialWriter.currentOffset ∧
    (setCells cRange oRange tRange initialWriter).2.currentOffset =
      initialWriter.currentOffset + (8 + size_bytes cRange) + (8 + size_bytes oRange) +
        (8 + size_bytes tRange) := by
  have h := registration_offset_accounting initialWriter pRange cRange oRange tRange "Points" 3
  exact ⟨h.1, h.2.2.2.2.2.2 (by decide)⟩

/-- C5: when a non-`None` compression type is configured but the factory
yields no codec, `write` does not fail: compression is silently disabled and
the document equals the uncompressed streaming document — registration-time
offsets in the schema, no compressor attribute. -/
theorem write_unavailable_codec_degrades
    (s : WriterState) (factory : CompressorFactory)
    (h1 : s.compressionType ≠ CompressionType.none)
    (h2 : factory s.compressionType = Option.none) :
    write factory s = writeStreaming s ∧
    (write factory s).compressorAttr = Option.none ∧
    (write factory s).binary = streamingBinary s.accessors ∧
    (write factory s).schema = ((blocksInOrder s).map writeArrayHeader).flatten ∧
    (∀ g : CompressorFactory,
      write factory s = write g (setCompression CompressionType.none s)) := by
  have hw : write factory s = writeStreaming s := by
    unfold write
    rw [h2]
  refine ⟨hw, by rw [hw]; rfl, by rw [hw]; rfl, by rw [hw]; rfl, fun g => ?_⟩
  rw [hw]
  unfold write setCompression
  cases hg : g CompressionType.none with
  | none => rfl
  | some comp => rfl

/-- Witness for C5: the demo dataset with zlib requested and no codec
available writes the streaming document. -/
theorem write_unavailable_codec_witness :
    write (fun _ => Option.none) demoCompressed = writeStreaming demoCompressed :=
  (write_unavailable_codec_degrades demoCompressed (fun _ => Option.none)
    (by decide) rfl).1

/-- C8: in streaming mode `write` emits, per accessor in registration order,
an 8-byte little-endian header decoding to that accessor's `size_bytes()`
followed by its payload bytes, and the schema carries the registration-time
offsets unchanged. -/
theorem write_streaming_layout
    (s : WriterState) (factory : CompressorFactory)
    (h : s.compressionType = CompressionType.none) :
    (write factory s).binary =
      (s.accessors.map (fun a => encodeLE 8 (size_bytes a) ++ payloadBytes a)).flatten ∧
    (∀ a : Range, (encodeLE 8 (size_bytes a)).length = 8) ∧
    (∀ a : Range, size_bytes a < 2 ^ 64 →
      decodeLE (encodeLE 8 (size_bytes a)) = size_bytes a) ∧
    (write factory s).schema = ((blocksInOrder s).map writeArrayHeader).flatten := by
  have hw : write factory s = writeStreaming s := by
    unfold write
    cases hf : factory s.compressionType with
    | none => rfl
    | some comp => rw [h]; simp
  refine ⟨?_, fun a => encodeLE_length 8 _, fun a ha => ?_, by rw [hw]; rfl⟩
  · rw [hw]
    show streamingBinary s.accessors = _
    unfold streamingBinary
    refine congrArg List.flatten (List.map_congr_left ?_)
    intro a _
    rw [write_to_stream_eq]
    simp [write_le]
  · have h256 : (256 : Nat) ^ 8 = 2 ^ 64 := by norm_num
    exact decodeLE_encodeLE_of_lt (by rw [h256]; exact ha)

/-- Witness for C8 on the demo dataset with no compression configured. -/
theorem write_streaming_witness :
    (write idFactory (applyCalls demoCalls)).binary =
      ((applyCalls demoCalls).accessors.map
          (fun a => encodeLE 8 (size_bytes a) ++ payloadBytes a)).flatten :=
  (write_streaming_layout (applyCalls demoCalls) idFactory rfl).1

/-- C9: little-endian encode followed by little-endian decode is the identity
on the element sequence — for the contiguous fast path, the element-wise slow
path, and the materializing `write_to`. -/
theorem roundtrip_little_endian (r : Range) (w : Nat)
    (h1 : r.elemSize = w + 1)
    (h2 : ∀ e ∈ r.elems, e < 256 ^ (w + 1)) :
    decodeStream w (write_to_stream_contiguous r) = r.elems ∧
    decodeStream w (write_to_stream_noncontiguous r) = r.elems ∧
    decodeStream w (write_to_stream r) = r.elems ∧
    decodeStream w (write_to r []) = r.elems := by
  have hp : payloadBytes r = (r.elems.map (encodeLE (w + 1))).flatten := by
    unfold payloadBytes
    rw [h1]
  have hd : decodeStream w (payloadBytes r) = r.elems := by
    rw [hp]
    exact decodeStream_flatten w r.elems h2
  refine ⟨hd, ?_, ?_, ?_⟩
  · rw [write_to_stream_noncontiguous_eq]
    exact hd
  · rw [write_to_stream_eq]
    exact hd
  · rw [write_to_eq]
    simpa using hd

/-- Witness for C9 on a concrete one-byte-element range. -/
theorem roundtrip_little_endian_witness :
    decodeStream 0 (write_to_stream pRange) = pRange.elems :=
  (roundtrip_little_endian pRange 0 rfl (by decide)).2.2.1

/-- C10: the flattening adapter over `M` tuples of width `W` yields exactly
`M * W` scalars in tuple-major order; flat index `i` reads component `i % W`
of tuple `i / W`; for a rank-0 (scalar-per-element) slice (`W = 1`) the
sequence equals the source element sequence. -/
theorem flattened_view_spec (s : CabanaSlice) (h : 0 < s.numComponents) :
    (CabanaSlice.flattenedSeq s).length = s.numTuples * s.numComponents ∧
    (∀ i : Nat, CabanaSlice.flattenedGet s i =
      s.access (i / s.numComponents) (i % s.numComponents)) ∧
    CabanaSlice.flattenedSeq s = CabanaSlice.tupleMajorSeq s ∧
    (s.numComponents = 1 →
      CabanaSlice.flattenedSeq s = (List.range s.numTuples).map (fun t => s.access t 0)) := by
  refine ⟨by simp [CabanaSlice.flattenedSeq, CabanaSlice.flattenedSize],
    fun i => rfl, ?_, ?_⟩
  · unfold CabanaSlice.flattenedSeq CabanaSlice.tupleMajorSeq CabanaSlice.flattenedSize
      CabanaSlice.flattenedGet
    exact range_mul_div_mod s.numComponents h s.numTuples s.access
  · intro h1
    unfold CabanaSlice.flattenedSeq CabanaSlice.flattenedSize CabanaSlice.flattenedGet
    rw [h1]
    simp [Nat.div_one, Nat.mod_one, Nat.mul_one]

/-- Witness for C10 on a 2×3 slice. -/
theorem flattened_view_witness :
    CabanaSlice.flattenedSeq demoSlice = CabanaSlice.tupleMajorSeq demoSlice :=
  (flattened_view_spec demoSlice (by decide)).2.2.1

theorem prePassFold_spec (comp : Compressor) (accessors : List Range) :
    ∀ (L : List (DataBlockInfo × Nat)) (st : PrePassState),
    (prePassFold comp accessors st L).compressedBuffers
        = st.compressedBuffers ++ (blockPayloads accessors L).map comp ∧
    (prePassFold comp accessors st L).originalSizes
        = st.originalSizes ++ (blockPayloads accessors L).map List.length ∧
    ((prePassFold comp accessors st L).blocksOut.map writeArrayHeader).flatten.map
        (fun e => e.offset)
      = ((st.blocksOut.map writeArrayHeader).flatten.map (fun e => e.offset))
          ++ runningOffsets comp st.runningOffset (blockPayloads accessors L) ∧
    (prePassFold comp accessors st L).runningOffset
      = st.runningOffset
          + ((blockPayloads accessors L).map (fun p => 32 + (comp p).length)).sum := by
  intro L
  induction L with
  | nil => intro st; simp [prePassFold, blockPayloads, runningOffsets]
  | cons q L ih =>
    intro st
    have hstep : prePassFold comp accessors st (q :: L) =
        prePassFold comp accessors (processBlock comp accessors st q.1 q.2) L := rfl
    obtain ⟨ih1, ih2, ih3, ih4⟩ := ih (processBlock comp accessors st q.1 q.2)
    by_cases hv : q.1.valid
    · have hcb : (processBlock comp accessors st q.1 q.2).compressedBuffers
          = st.compressedBuffers ++ [comp (write_to (accessors.getD q.2 default) [])] := by
        simp [processBlock, hv]
      have hos : (processBlock comp accessors st q.1 q.2).originalSizes
          = st.originalSizes ++ [(write_to (accessors.getD q.2 default) []).length] := by
        simp [processBlock, hv]
      have hro : (processBlock comp accessors st q.1 q.2).runningOffset
          = st.runningOffset + (32 + (comp (write_to (accessors.getD q.2 default) [])).length) := by
        simp [processBlock, hv]
      have hbo : (processBlock comp accessors st q.1 q.2).blocksOut
          = st.blocksOut ++ [{ q.1 with offset := st.runningOffset }] := by
        simp [processBlock, hv]
      have hbp : blockPayloads accessors (q :: L) =
          write_to (accessors.getD q.2 default) [] :: blockPayloads accessors L := by
        simp [blockPayloads, hv]
      refine ⟨?_, ?_, ?_, ?_⟩
      · rw [hstep, ih1, hcb, hbp]
        simp [List.append_assoc]
      · rw [hstep, ih2, hos, hbp]
        simp [List.append_assoc]
      · rw [hstep, ih3, hbo, hro, hbp]
        simp [writeArrayHeader, hv, runningOffsets, List.append_assoc]
      · rw [hstep, ih4, hro, hbp]
        simp only [List.map_cons, List.sum_cons]
        omega
    · have hcb : (processBlock comp accessors st q.1 q.2).compressedBuffers
          = st.compressedBuffers := by
        simp [processBlock, hv]
      have hos : (processBlock comp accessors st q.1 q.2).originalSizes
          = st.originalSizes := by
        simp [processBlock, hv]
      have hro : (processBlock comp accessors st q.1 q.2).runningOffset
          = st.runningOffset := by
        simp [processBlock, hv]
      have hbo : (processBlock comp accessors st q.1 q.2).blocksOut
          = st.blocksOut ++ [q.1] := by
        simp [processBlock, hv]
      have hbp : blockPayloads accessors (q :: L) = blockPayloads accessors L := by
        simp [blockPayloads, hv]
      refine ⟨?_, ?_, ?_, ?_⟩
      · rw [hstep, ih1, hcb, hbp]
      · rw [hstep, ih2, hos, hbp]
      · rw [hstep, ih3, hbo, hro, hbp]
        simp [writeArrayHeader, hv]
      · rw [hstep, ih4, hro, hbp]

theorem writeCompressedBlock_eq (comp : Compressor) (p : List Nat) :
    writeCompressedBlock p.length (comp p) =
      vtkBlockHeader comp p ++ comp p ++ vtkBlockHeader comp p := by
  unfold writeCompressedBlock vtkBlockHeader
  simp [List.append_assoc]

/-- C7: in compressed mode the binary section is, per valid block in order,
the four-field header `[1, original_size, original_size, compressed_size]`
(8-byte little-endian fields) followed by the compressor's exact output for
that block's payload (and, per the stray buffer mutation in the source, a
trailing copy of the header); the rewritten schema offsets form the running
sum `offset_0 = 0`, `offset_(i+1) = offset_i + 32 + compressed_size_i`. -/
theorem write_compressed_header_and_offsets
    (s : WriterState) (factory : CompressorFactory) (comp : Compressor)
    (h1 : s.compressionType ≠ CompressionType.none)
    (h2 : factory s.compressionType = Option.some comp) :
    (write factory s).binary =
      ((prePassPayloads s).map
          (fun p => vtkBlockHeader comp p ++ comp p ++ vtkBlockHeader comp p)).flatten ∧
    (write factory s).schema.map (fun e => e.offset) =
      runningOffsets comp 0 (prePassPayloads s) := by
  have hw : write factory s = writeCompressed comp s := by
    unfold write
    rw [h2]
    exact if_neg h1
  obtain ⟨h1', h2', h3', h4'⟩ :=
    prePassFold_spec comp s.accessors (prePassList s)
      { compressedBuffers := [], originalSizes := [], runningOffset := 0, blocksOut := [] }
  constructor
  · rw [hw]
    show compressedBinary (runPrePass comp s) = _
    unfold compressedBinary runPrePass
    rw [h1', h2']
    simp only [List.nil_append]
    rw [show (prePassPayloads s) = blockPayloads s.accessors (prePassList s) from rfl]
    rw [List.zip_map']
    rw [List.map_map]
    refine congrArg List.flatten (List.map_congr_left ?_)
    intro p _
    exact writeCompressedBlock_eq comp p
  · rw [hw]
    show ((runPrePass comp s).blocksOut.map writeArrayHeader).flatten.map (fun e => e.offset) = _
    unfold runPrePass
    rw [h3']
    simp [prePassPayloads]

/-- Witness for C7: the demo dataset under the identity codec; the schema
offsets are the running sum over `32 + compressed_size`. -/
theorem write_compressed_offsets_witness :
    (write idFactory demoCompressed).schema.map (fun e => e.offset) =
      runningOffsets (fun b => b) 0 (prePassPayloads demoCompressed) :=
  (write_compressed_header_and_offsets demoCompressed idFactory (fun b => b)
    (by decide) rfl).2

theorem flatten_map_singleton {α β : Type} (f : α → β) (l : List α) :
    (l.map (fun x => [f x])).flatten = l.map f := by
  induction l with
  | nil => rfl
  | cons x xs ih => simp [ih]

theorem regInfoList_length (off : Nat) (xs : List (String × Range × Nat)) :
    (regInfoList off xs).length = xs.length := by
  induction xs generalizing off with
  | nil => rfl
  | cons x xs ih => simp [regInfoList, ih]

theorem regInfoList_valid (off : Nat) (xs : List (String × Range × Nat)) :
    ∀ b ∈ regInfoList off xs, b.valid = true := by
  induction xs generalizing off with
  | nil => intro b hb; simp [regInfoList] at hb
  | cons x xs ih =>
    intro b hb
    simp only [regInfoList, List.mem_cons] at hb
    rcases hb with hb | hb
    · rw [hb]
    · exact ih _ b hb

theorem foldl_pointData_calls (pds : List (String × Range × Nat)) :
    ∀ (s : WriterState),
    (pds.map mkPointDataCall).foldl applyCall s =
      { s with
          accessors := s.accessors ++ pds.map (fun x => x.2.1)
          currentOffset := s.currentOffset + regCost pds
          pointDataBlocks := s.pointDataBlocks ++ regInfoList s.currentOffset pds } := by
  induction pds with
  | nil => intro s; simp [regCost, regInfoList]
  | cons x xs ih =>
    intro s
    simp only [List.map_cons, List.foldl_cons]
    rw [ih]
    simp [applyCall, mkPointDataCall, addPointData, registerData, regInfoList, regCost,
      List.append_assoc, Nat.add_assoc]

theorem foldl_cellData_calls (cds : List (String × Range × Nat)) :
    ∀ (s : WriterState),
    (cds.map mkCellDataCall).foldl applyCall s =
      { s with
          accessors := s.accessors ++ cds.map (fun x => x.2.1)
          currentOffset := s.currentOffset + regCost cds
          cellDataBlocks := s.cellDataBlocks ++ regInfoList s.currentOffset cds } := by
  induction cds with
  | nil => intro s; simp [regCost, regInfoList]
  | cons x xs ih =>
    intro s
    simp only [List.map_cons, List.foldl_cons]
    rw [ih]
    simp [applyCall, mkCellDataCall, addCellData, registerData, regInfoList, regCost,
      List.append_assoc, Nat.add_assoc]

theorem enum_regInfo_pairs (post : List Range) :
    ∀ (xs : List (String × Range × Nat)) (pre : List Range) (off : Nat),
    ((List.enumFrom pre.length (regInfoList off xs)).map (fun q => (q.2, q.1))).filterMap
        (fun q =>
          if q.1.valid then
            Option.some (q.1.name,
              (pre ++ (xs.map (fun x => x.2.1) ++ post)).getD q.2 default)
          else Option.none)
      = xs.map (fun x => (x.1, x.2.1)) := by
  intro xs
  induction xs with
  | nil => intro pre off; simp [regInfoList]
  | cons x xs ih =>
    intro pre off
    simp only [regInfoList, List.enumFrom, List.map_cons, List.filterMap_cons, if_pos]
    have hgd : (pre ++ ((x.2.1 :: xs.map (fun y => y.2.1)) ++ post)).getD pre.length default
        = x.2.1 := by
      rw [List.getD_append_right _ _ _ _ (le_refl pre.length)]
      simp
    have hA : pre ++ ((x.2.1 :: xs.map (fun y => y.2.1)) ++ post)
        = (pre ++ [x.2.1]) ++ (xs.map (fun y => y.2.1) ++ post) := by
      simp [List.append_assoc]
    have hk : pre.length + 1 = (pre ++ [x.2.1]).length := by simp
    rw [hgd, hA, hk, ih (pre ++ [x.2.1]) (off + (8 + size_bytes x.2.1))]

theorem enum_regInfo_pairs_shifted (post : List Range)
    (xs : List (String × Range × Nat)) (pre : List Range) (off : Nat)
    (A : List Range) (k : Nat)
    (hk : k = pre.length) (hA : A = pre ++ (xs.map (fun x => x.2.1) ++ post)) :
    ((List.enumFrom k (regInfoList off xs)).map (fun q => (q.2, q.1))).filterMap
        (fun q =>
          if q.1.valid then Option.some (q.1.name, A.getD q.2 default)
          else Option.none)
      = xs.map (fun x => (x.1, x.2.1)) := by
  subst hk
  subst hA
  exact enum_regInfo_pairs post xs pre off

/-- C3 counterexample: the interface permits `setCells` before `setPoints`,
and then the pre-pass pairs the Points block with the connectivity accessor
(hard-coded index 0) rather than the accessor registered for it — every
block consumes some other block's accessor. -/
theorem prePass_pairs_counterexample :
    prePassPairs (applyCalls swappedCalls) =
      [("Points", cRange), ("connectivity", oRange), ("offsets", tRange), ("types", pRange)] ∧
    registrationPairs swappedCalls =
      [("connectivity", cRange), ("offsets", oRange), ("types", tRange), ("Points", pRange)] ∧
    cRange ≠ pRange := by
  refine ⟨by decide, by decide, by decide⟩

/-- C3 amended: under the canonical registration order — `setPoints` once,
then `setCells` once, then all `addPointData`, then all `addCellData` — the
accessor list and the block list are the same length and co-indexed, and the
pre-pass consumes for every block exactly the accessor registered for it. -/
theorem canonical_coindexing (p c o t : Range) (pds cds : List (String × Range × Nat))
    (h : o.elems.length = t.elems.length) :
    prePassPairs (applyCalls (canonCalls p c o t pds cds)) =
      registrationPairs (canonCalls p c o t pds cds) ∧
    (applyCalls (canonCalls p c o t pds cds)).accessors.length =
      4 + (pds.length + cds.length) ∧
    ((blocksInOrder (applyCalls (canonCalls p c o t pds cds))).filter
        (fun b => b.valid)).length =
      (applyCalls (canonCalls p c o t pds cds)).accessors.length := by
  have hsplit : applyCalls (canonCalls p c o t pds cds)
      = (cds.map mkCellDataCall).foldl applyCall
          ((pds.map mkPointDataCall).foldl applyCall
            (applyCall (applyCall initialWriter (RegCall.points p)) (RegCall.cells c o t))) := by
    unfold applyCalls canonCalls
    rw [List.foldl_cons, List.foldl_cons, List.foldl_append]
  have hs0eq : applyCall (applyCall initialWriter (RegCall.points p)) (RegCall.cells c o t)
      = canonBase p c o t := by
    simp [applyCall, setPoints, setCells, h, registerData, initialWriter, canonBase]
  have hF : applyCalls (canonCalls p c o t pds cds) =
      { canonBase p c o t with
          accessors := [p, c, o, t]
            ++ (pds.map (fun x => x.2.1) ++ cds.map (fun x => x.2.1))
          currentOffset := (canonBase p c o t).currentOffset + regCost pds + regCost cds
          pointDataBlocks := regInfoList (canonBase p c o t).currentOffset pds
          cellDataBlocks :=
            regInfoList ((canonBase p c o t).currentOffset + regCost pds) cds } := by
    rw [hsplit, hs0eq, foldl_pointData_calls, foldl_cellData_calls]
    simp [canonBase, List.append_assoc]
  have hreg : registrationPairs (canonCalls p c o t pds cds)
      = ("Points", p) :: ("connectivity", c) :: ("offsets", o) :: ("types", t) ::
          (pds.map (fun x => (x.1, x.2.1)) ++ cds.map (fun x => (x.1, x.2.1))) := by
    unfold registrationPairs canonCalls
    simp only [List.map_cons, List.flatten_cons, List.map_append, List.flatten_append,
      List.map_map]
    rw [show callRegistrations (RegCall.points p) = [("Points", p)] from rfl]
    rw [show callRegistrations (RegCall.cells c o t)
        = [("connectivity", c), ("offsets", o), ("types", t)] from by
      simp [callRegistrations, h]]
    rw [show callRegistrations ∘ mkPointDataCall
        = fun x : String × Range × Nat => [(x.1, x.2.1)] from rfl]
    rw [show callRegistrations ∘ mkCellDataCall
        = fun x : String × Range × Nat => [(x.1, x.2.1)] from rfl]
    rw [flatten_map_singleton, flatten_map_singleton]
    simp [List.append_assoc]
  refine ⟨?_, ?_, ?_⟩
  · rw [hF, hreg]
    unfold prePassPairs prePassList
    simp only [canonBase]
    rw [regInfoList_length]
    simp only [List.cons_append, List.nil_append, List.filterMap_cons, List.filterMap_append,
      List.getD_cons_zero, List.getD_cons_succ, eq_self_iff_true, if_true]
    rw [enum_regInfo_pairs_shifted (cds.map (fun x => x.2.1)) pds [p, c, o, t]
        (8 + size_bytes p + (8 + size_bytes c) + (8 + size_bytes o) + (8 + size_bytes t))
        (p :: c :: o :: t :: (pds.map (fun x => x.2.1) ++ cds.map (fun x => x.2.1))) 4
        rfl rfl]
    rw [enum_regInfo_pairs_shifted []
        cds ([p, c, o, t] ++ pds.map (fun x => x.2.1))
        (8 + size_bytes p + (8 + size_bytes c) + (8 + size_bytes o) + (8 + size_bytes t)
          + regCost pds)
        (p :: c :: o :: t :: (pds.map (fun x => x.2.1) ++ cds.map (fun x => x.2.1)))
        (4 + pds.length)
        (by simp; omega) (by simp [List.append_assoc])]
  · rw [hF]
    simp
    omega
  · rw [hF]
    unfold blocksInOrder
    simp only [canonBase]
    simp [List.filter_append, List.filter_cons, regInfoList_length,
      List.filter_eq_self.mpr (regInfoList_valid _ pds),
      List.filter_eq_self.mpr (regInfoList_valid _ cds)]

/-- Witness for the amended C3 at a concrete canonical call sequence with one
point-data and one cell-data array. -/
theorem canonical_coindexing_witness :
    prePassPairs (applyCalls (canonCalls pRange cRange oRange tRange
        [("T", pRange, 1)] [("Q", tRange, 1)])) =
      registrationPairs (canonCalls pRange cRange oRange tRange
        [("T", pRange, 1)] [("Q", tRange, 1)]) :=
  (canonical_coindexing pRange cRange oRange tRange [("T", pRange, 1)] [("Q", tRange, 1)]
    (by decide)).1

set_option maxRecDepth 10000 in
/-- C1 evaluated at a failing input: with the demo dataset (payload sizes 3,
4, 1, 1), zlib configured and the identity codec, the schema declares offsets
`[0, 35, 71, 104]` (deltas of `32 + compressed_size`), but each emitted block
is `64 + compressed_size` bytes long — the first loop of
`writeCompressedBlock` (`vtu_writer.hpp:197-200`) appends the 32-byte header
into the stored compressed buffer before the buffer is written, against its
own comment "No, just write to stream".  The second block's header is
physically at byte 67, not at its declared offset 35, where a stray copy of
the first block's header sits instead. -/
theorem compressed_offset_position_bug :
    (write idFactory demoCompressed).schema.map (fun e => e.offset) = [0, 35, 71, 104] ∧
    ((write idFactory demoCompressed).binary.drop 67).take 32 =
      encodeLE 8 1 ++ encodeLE 8 4 ++ encodeLE 8 4 ++ encodeLE 8 4 ∧
    ((write idFactory demoCompressed).binary.drop 35).take 32 ≠
      encodeLE 8 1 ++ encodeLE 8 4 ++ encodeLE 8 4 ++ encodeLE 8 4 ∧
    (write idFactory demoCompressed).binary.length = 265 := by
  refine ⟨by decide, by decide, by decide, by decide⟩

set_option maxRecDepth 10000 in
/-- C2 evaluated at a failing input: a points-only dataset, zlib configured,
and a codec that returns the empty-vector failure indicator.  `processBlock`
(`vtu_writer.hpp:97-98`) stores the empty result without any check, and
`write` runs to completion and commits a document whose single block header
declares `compressed_size = 0` (bytes 24-31 of the binary section) followed
by no compressed bytes — no fatal error, no abort. -/
theorem compressor_failure_not_detected :
    (write failFactory demoPointsOnly).binary.length = 64 ∧
    ((write failFactory demoPointsOnly).binary.drop 24).take 8 = encodeLE 8 0 ∧
    (write failFactory demoPointsOnly).schema =
      [{ typeName := "Float64", name := "Points", numComponents := 3, offset := 0 }] := by
  refine ⟨by decide, by decide, by decide⟩

end Microvtk
